import Mathlib

/-!
# Verification of the ITCH replay server / client framing core

Shallow embedding of the C sources of the `itch-parser` repository:

* `src/itch_replay_server.c` — the `ITCH_MSG_LENGTHS` table, `read_timestamp`,
  the framing/replay loop of `replay_itch_file`, `broadcast_message`, the
  pacing computation, and the argument handling of `main`.
* `src/itch_parser.c` — `message_length_by_type`, `get_itch_message_length`,
  `parse_timestamp`, and the dispatch switch of `parse_itch_message`.
* `src/itch_client.c` — the client re-framing loop shares the structure of the
  server loop; the claims below are settled against the server loop.

Bytes are modelled as `Nat` (with `< 256` hypotheses where the value matters),
byte buffers as `List Nat`, and the byte source as a list of chunks, one chunk
handed out per `fread`/`gzread` call (capped at the requested room).
-/

/-! ## Message type table

`ITCH_MSG_LENGTHS` embeds the designated-initializer array of
`src/itch_replay_server.c` lines 37-43 (a `uint8_t[256]` array, zero
everywhere except the twenty listed ASCII indices).
`message_length_by_type` embeds the switch of `src/itch_parser.c`
lines 290-314.  ASCII codes: S=83 R=82 H=72 Y=89 L=76 V=86 W=87 K=75
A=65 F=70 E=69 C=67 X=88 D=68 U=85 P=80 Q=81 B=66 I=73 N=78. -/

def ITCH_MSG_LENGTHS (t : Nat) : Nat :=
  if t = 83 then 12 else if t = 82 then 39 else if t = 72 then 25 else
  if t = 89 then 20 else if t = 76 then 26 else if t = 86 then 35 else
  if t = 87 then 12 else if t = 75 then 28 else if t = 65 then 36 else
  if t = 70 then 40 else if t = 69 then 31 else if t = 67 then 36 else
  if t = 88 then 23 else if t = 68 then 19 else if t = 85 then 35 else
  if t = 80 then 44 else if t = 81 then 40 else if t = 66 then 19 else
  if t = 73 then 50 else if t = 78 then 20 else 0

def message_length_by_type (t : Nat) : Nat :=
  if t = 83 then 12 else      -- case 'S': System Event
  if t = 82 then 39 else      -- case 'R': Stock Directory
  if t = 72 then 25 else      -- case 'H': Stock Trading Action
  if t = 89 then 20 else      -- case 'Y': Reg SHO Restriction
  if t = 76 then 26 else      -- case 'L': Market Participant Position
  if t = 86 then 35 else      -- case 'V': MWCB Decline Level
  if t = 87 then 12 else      -- case 'W': MWCB Status
  if t = 75 then 28 else      -- case 'K': IPO Quoting Period Update
  if t = 65 then 36 else      -- case 'A': Add Order (No MPID)
  if t = 70 then 40 else      -- case 'F': Add Order (MPID)
  if t = 69 then 31 else      -- case 'E': Order Executed
  if t = 67 then 36 else      -- case 'C': Order Executed With Price
  if t = 88 then 23 else      -- case 'X': Order Cancel
  if t = 68 then 19 else      -- case 'D': Order Delete
  if t = 85 then 35 else      -- case 'U': Order Replace
  if t = 80 then 44 else      -- case 'P': Trade (Non-Cross)
  if t = 81 then 40 else      -- case 'Q': Cross Trade
  if t = 66 then 19 else      -- case 'B': Broken Trade
  if t = 73 then 50 else      -- case 'I': NOII
  if t = 78 then 20 else      -- case 'N': RPII
  0                           -- default

/-- `get_itch_message_length` of `src/itch_parser.c` lines 342-344. -/
def get_itch_message_length (t : Nat) : Nat := message_length_by_type t

/-- `get_message_length` of `src/itch_replay_server.c` lines 74-76. -/
def get_message_length (t : Nat) : Nat := ITCH_MSG_LENGTHS t

/-! ## Dispatcher of `parse_itch_message` (src/itch_parser.c lines 317-339)

The switch has dedicated decoder cases exactly for
S, R, H, A, F, E, C, X, D, U, P, Q, B; every other type byte reaches the
`default:` branch, which prints the unknown-message diagnostic. -/

inductive DispatchResult where
  | handled (t : Nat)
  | unknownDiag (t : Nat)
deriving DecidableEq, Repr

def parse_itch_message_dispatch (t : Nat) : DispatchResult :=
  if t = 83 ∨ t = 82 ∨ t = 72 ∨ t = 65 ∨ t = 70 ∨ t = 69 ∨ t = 67 ∨
     t = 88 ∨ t = 68 ∨ t = 85 ∨ t = 80 ∨ t = 81 ∨ t = 66 then
    .handled t
  else
    .unknownDiag t

/-! ## Timestamp decoding

`read_timestamp` (src/itch_replay_server.c lines 66-71) and
`parse_timestamp` (src/itch_parser.c lines 25-30): `memcpy` 8 bytes into a
`uint64_t` (little-endian host load), `__builtin_bswap64`, shift right 16. -/

/-- Little-endian 64-bit load of the first 8 bytes (the `memcpy` into a
`uint64_t` on the little-endian host the code targets). -/
def load64le (b : List Nat) : Nat :=
  b.getD 0 0 + 256 * b.getD 1 0 + 256 ^ 2 * b.getD 2 0 + 256 ^ 3 * b.getD 3 0 +
  256 ^ 4 * b.getD 4 0 + 256 ^ 5 * b.getD 5 0 + 256 ^ 6 * b.getD 6 0 +
  256 ^ 7 * b.getD 7 0

/-- `__builtin_bswap64`: reverse the eight bytes of a 64-bit value. -/
def bswap64 (x : Nat) : Nat :=
  (x % 256) * 256 ^ 7 + (x / 256 % 256) * 256 ^ 6 +
  (x / 256 ^ 2 % 256) * 256 ^ 5 + (x / 256 ^ 3 % 256) * 256 ^ 4 +
  (x / 256 ^ 4 % 256) * 256 ^ 3 + (x / 256 ^ 5 % 256) * 256 ^ 2 +
  (x / 256 ^ 6 % 256) * 256 + (x / 256 ^ 7 % 256)

/-- `read_timestamp` of `src/itch_replay_server.c` lines 66-71. -/
def read_timestamp (b : List Nat) : Nat := bswap64 (load64le b) / 2 ^ 16

/-- `parse_timestamp` of `src/itch_parser.c` lines 25-30 (same body). -/
def parse_timestamp (b : List Nat) : Nat := bswap64 (load64le b) / 2 ^ 16

/-- Big-endian value of a byte string (the spec's "unsigned big-endian value
of the first 6 bytes" is `beValue (b.take 6)`). -/
def beValue (b : List Nat) : Nat := b.foldl (fun acc x => acc * 256 + x) 0

/-! ## The framing / replay loop (`replay_itch_file`, src/itch_replay_server.c lines 110-239)

The byte source (`fread` on a regular file, `gzread` on a compressed one, or
`recv` in the client) is modelled as a list of chunks: one `read` call with
`room` bytes requested returns the head chunk, capped at `room` bytes (the
remainder of an over-long chunk stays at the front).  An empty chunk models a
read call that returns 0 bytes; an empty chunk list models end-of-stream
(every further read returns 0 bytes). -/

def BUFFER_SIZE : Nat := 65536   -- 64 * 1024

/-- One `fread`/`gzread` call requesting `room` bytes. -/
def readSrc (room : Nat) (src : List (List Nat)) : List Nat × List (List Nat) :=
  match src with
  | [] => ([], [])
  | c :: rest =>
    if c.drop room = [] then (c, rest) else (c.take room, c.drop room :: rest)

/-- Total number of bytes the source can still produce. -/
def srcTotal (src : List (List Nat)) : Nat := (src.map List.length).sum

/-- The refill block at the top of the while loop (lines 136-157): when the
resident count is below half capacity, request `BUFFER_SIZE - buffer_used`
bytes and append them to the buffer. -/
def refillIf (buf : List Nat) (src : List (List Nat)) : List Nat × List (List Nat) :=
  if buf.length < BUFFER_SIZE / 2 then
    (buf ++ (readSrc (BUFFER_SIZE - buf.length) src).1,
     (readSrc (BUFFER_SIZE - buf.length) src).2)
  else
    (buf, src)

/-- Result of a run of the replay loop: framed messages broadcast, unknown
type bytes reported (line 166), and whether the
"Incomplete message at end of file" diagnostic (line 187) was printed. -/
structure RunResult where
  msgs : List (List Nat)
  diags : List Nat
  report : Bool
deriving DecidableEq, Repr

/-- Outcome of one iteration of the while loop. -/
inductive Step where
  | halt (r : RunResult)
  | next (buf : List Nat) (src : List (List Nat))
         (msgs : List (List Nat)) (diags : List Nat)
deriving DecidableEq, Repr

/-- One iteration of the while loop of `replay_itch_file` (lines 135-228),
with the framed-message accumulator `msgs` and diagnostic accumulator `diags`
kept in reverse order.  Control flow:

* refill when `buffer_used < BUFFER_SIZE / 2` (lines 136-157); a 0-byte read
  with an empty buffer, and the `buffer_used < 1` guard (line 160), both
  terminate the loop — jointly: an empty post-refill buffer terminates;
* type byte with table length 0: diagnostic, drop one byte, `continue`
  (lines 165-171);
* `buffer_used < msg_len`: one additional read (lines 173-190); a read of
  0 bytes breaks out silently (line 178/182: `if (bytes_read <= 0) break`);
  if the buffer is still short after a non-empty read, print the
  incomplete-message diagnostic and break (lines 186-189);
* otherwise broadcast `buffer[0..msg_len)` and drop it (lines 214-227). -/
def replayStep (buf : List Nat) (src : List (List Nat))
    (msgs : List (List Nat)) (diags : List Nat) : Step :=
  match refillIf buf src with
  | ([], _) => .halt ⟨msgs.reverse, diags.reverse, false⟩
  | (t :: rest, src1) =>
    if ITCH_MSG_LENGTHS t = 0 then
      .next rest src1 msgs (t :: diags)
    else if (t :: rest).length < ITCH_MSG_LENGTHS t then
      match readSrc (BUFFER_SIZE - (t :: rest).length) src1 with
      | ([], _) => .halt ⟨msgs.reverse, diags.reverse, false⟩
      | (chunk, src2) =>
        if ((t :: rest) ++ chunk).length < ITCH_MSG_LENGTHS t then
          .halt ⟨msgs.reverse, diags.reverse, true⟩
        else
          .next (((t :: rest) ++ chunk).drop (ITCH_MSG_LENGTHS t)) src2
                ((((t :: rest) ++ chunk).take (ITCH_MSG_LENGTHS t)) :: msgs)
                diags
    else
      .next ((t :: rest).drop (ITCH_MSG_LENGTHS t)) src1
            (((t :: rest).take (ITCH_MSG_LENGTHS t)) :: msgs) diags

theorem readSrc_total (room : Nat) (src : List (List Nat)) :
    (readSrc room src).1.length + srcTotal (readSrc room src).2 = srcTotal src := by
  match src with
  | [] => simp [readSrc, srcTotal]
  | c :: rest =>
    simp only [readSrc]
    split
    · simp [srcTotal]
    · rename_i h
      simp only [srcTotal, List.map_cons, List.sum_cons]
      have := List.take_append_drop room c
      have hlen : (c.take room).length + (c.drop room).length = c.length := by
        calc (c.take room).length + (c.drop room).length
            = (c.take room ++ c.drop room).length := by rw [List.length_append]
          _ = c.length := by rw [List.take_append_drop]
      omega

theorem refillIf_total (buf : List Nat) (src : List (List Nat)) :
    (refillIf buf src).1.length + srcTotal (refillIf buf src).2 =
      buf.length + srcTotal src := by
  unfold refillIf
  split
  · have := readSrc_total (BUFFER_SIZE - buf.length) src
    simp only [List.length_append]
    omega
  · rfl

/-- Each `.next` outcome strictly decreases resident bytes + source bytes. -/
theorem replayStep_decreases (buf : List Nat) (src : List (List Nat))
    (msgs : List (List Nat)) (diags : List Nat)
    (b : List Nat) (s : List (List Nat)) (m : List (List Nat)) (d : List Nat)
    (h : replayStep buf src msgs diags = .next b s m d) :
    b.length + srcTotal s < buf.length + srcTotal src := by
  have htot := refillIf_total buf src
  unfold replayStep at h
  split at h
  · exact absurd h (by simp)
  · rename_i t rest src1 heq
    have hlen1 : (t :: rest).length + srcTotal src1 = buf.length + srcTotal src := by
      rw [← htot, heq]
    split at h
    · -- unknown type byte: drop one byte
      injection h with h1 h2 h3 h4
      subst h1; subst h2
      simp only [List.length_cons] at hlen1
      omega
    · rename_i hL
      have hL1 : 1 ≤ ITCH_MSG_LENGTHS t := Nat.one_le_iff_ne_zero.mpr hL
      split at h
      · -- resident < L: inner refill
        split at h
        · exact absurd h (by simp)
        · rename_i chunk src2 heq2
          split at h
          · exact absurd h (by simp)
          · rename_i hfull
            injection h with h1 h2 h3 h4
            subst h1; subst h2
            have htot2 := readSrc_total (BUFFER_SIZE - (t :: rest).length) src1
            rw [heq2] at htot2
            simp only [List.length_drop, List.length_append, List.length_cons] at *
            omega
      · -- resident ≥ L: emit
        injection h with h1 h2 h3 h4
        subst h1; subst h2
        simp only [List.length_drop, List.length_cons] at *
        omega

/-- The while loop of `replay_itch_file`: iterate `replayStep` to completion. -/
def replayLoop (buf : List Nat) (src : List (List Nat))
    (msgs : List (List Nat)) (diags : List Nat) : RunResult :=
  match h : replayStep buf src msgs diags with
  | .halt r => r
  | .next b s m d => replayLoop b s m d
termination_by buf.length + srcTotal src
decreasing_by exact replayStep_decreases buf src msgs diags b s m d h

/-- `replay_itch_file` on a given byte source, starting from an empty buffer
(line 113: `buffer_used = 0`). -/
def replay_itch_file (src : List (List Nat)) : RunResult :=
  replayLoop [] src [] []

/-- A well-formed ITCH message: nonempty, type byte known to the table, and
total length exactly the table length. -/
def WFmsg (m : List Nat) : Prop :=
  m ≠ [] ∧ ITCH_MSG_LENGTHS m.headI ≠ 0 ∧ m.length = ITCH_MSG_LENGTHS m.headI

instance (m : List Nat) : Decidable (WFmsg m) := by
  unfold WFmsg; infer_instance

/-! ## The pacing computation (src/itch_replay_server.c lines 198-211)

The `double` speed multiplier is modelled as a rational; the C cast
`(uint64_t)(delta_ns / speed_multiplier)` truncates the non-negative quotient
toward zero, i.e. takes the floor. -/

/-- The sleep decision for consecutive timestamps `prev` and `cur` at speed
`m`: `some s` when `nsleep(s)` is called, `none` when no sleep happens. -/
def computeSleepNs (prev cur : Nat) (m : ℚ) : Option Nat :=
  if 0 < prev ∧ prev < cur ∧ 0 < m then
    -- uint64_t delta_ns = current_timestamp - prev_timestamp;
    -- uint64_t sleep_ns = (uint64_t)(delta_ns / speed_multiplier);
    -- if (sleep_ns > 1000000000ULL) sleep_ns = 1000000000ULL;
    -- if (sleep_ns > 1000) nsleep(sleep_ns);
    if 1000 < (if 1000000000 < (((cur - prev : Nat) : ℚ) / m).floor.toNat
               then 1000000000
               else (((cur - prev : Nat) : ℚ) / m).floor.toNat)
    then some (if 1000000000 < (((cur - prev : Nat) : ℚ) / m).floor.toNat
               then 1000000000
               else (((cur - prev : Nat) : ℚ) / m).floor.toNat)
    else none
  else none

/-! ## The broadcaster (`broadcast_message`, src/itch_replay_server.c lines 87-107)

The slot array scan is modelled on the list of slots; the outcome of
`send(fd, msg, len, MSG_NOSIGNAL)` is abstracted by a function from the
socket fd to an outcome: success, a disconnect-class error
(`errno == EPIPE || errno == ECONNRESET`), or any other error. -/

inductive SendOutcome where
  | ok
  | disconnect
  | otherError
deriving DecidableEq, Repr

/-- A `client_t` slot (socket fd and active flag; the peer address plays no
role in `broadcast_message`). -/
structure Client where
  socket_fd : Nat
  active : Bool
deriving DecidableEq, Repr

/-- Result of one `broadcast_message` call: the updated slot array, the fds
closed during the call (in scan order), and the attempted writes
`(fd, bytes)` (in scan order). -/
structure BroadcastResult where
  clients : List Client
  closed : List Nat
  attempts : List (Nat × List Nat)
deriving DecidableEq, Repr

/-- `broadcast_message(msg, len)`: scan every slot; skip inactive slots; send
to active ones; on a disconnect-class error close the socket and clear the
active flag; on any other error only `perror` (the slot is left untouched). -/
def broadcast_message (clients : List Client) (msg : List Nat)
    (send : Nat → SendOutcome) : BroadcastResult :=
  match clients with
  | [] => ⟨[], [], []⟩
  | c :: rest =>
    let r := broadcast_message rest msg send
    if c.active then
      match send c.socket_fd with
      | .ok => ⟨c :: r.clients, r.closed, (c.socket_fd, msg) :: r.attempts⟩
      | .disconnect =>
        ⟨{ c with active := false } :: r.clients,
         c.socket_fd :: r.closed, (c.socket_fd, msg) :: r.attempts⟩
      | .otherError =>
        -- perror("send"); the slot stays active and the socket stays open
        ⟨c :: r.clients, r.closed, (c.socket_fd, msg) :: r.attempts⟩
    else
      ⟨c :: r.clients, r.closed, r.attempts⟩

/-! ## Argument handling of `main` (src/itch_replay_server.c lines 284-320, 371)

`main` rejects only `argc < 2` (usage error, exit 1).  The port and speed
arguments are passed through `atoi`/`atof` with no validation; the parsed
numeric value is supplied abstractly.  With `argc ≥ 2` (and the socket calls
succeeding, which the claims do not concern) `replay_itch_file` is always
invoked with whatever multiplier was parsed. -/

inductive MainRoute where
  | usageError
  | replay (speed : ℚ)
deriving DecidableEq, Repr

def server_main_route (argc : Nat) (speedArg : ℚ) : MainRoute :=
  if argc < 2 then .usageError
  else .replay (if 4 ≤ argc then speedArg else 1)

/-! ## General lemmas about the framing loop -/

theorem replayLoop_eq_of_halt {buf : List Nat} {src : List (List Nat)}
    {msgs : List (List Nat)} {diags : List Nat} {r : RunResult}
    (h : replayStep buf src msgs diags = .halt r) :
    replayLoop buf src msgs diags = r := by
  rw [replayLoop]
  split
  · rename_i r2 heq
    rw [h] at heq
    injection heq with h1
    exact h1.symm
  · rename_i b s m d heq
    rw [h] at heq
    exact absurd heq (by simp)

theorem replayLoop_eq_of_next {buf b : List Nat} {src s : List (List Nat)}
    {msgs m : List (List Nat)} {diags d : List Nat}
    (h : replayStep buf src msgs diags = .next b s m d) :
    replayLoop buf src msgs diags = replayLoop b s m d := by
  rw [replayLoop]
  split
  · rename_i r2 heq
    rw [h] at heq
    exact absurd heq (by simp)
  · rename_i b2 s2 m2 d2 heq
    rw [h] at heq
    injection heq with h1 h2 h3 h4
    subst h1; subst h2; subst h3; subst h4
    rfl

set_option maxRecDepth 4096 in
theorem ITCH_MSG_LENGTHS_le_50 (t : Nat) : ITCH_MSG_LENGTHS t ≤ 50 := by
  by_cases ht : t < 256
  · have hall : ∀ x < 256, ITCH_MSG_LENGTHS x ≤ 50 := by decide
    exact hall t ht
  · unfold ITCH_MSG_LENGTHS
    repeat rw [if_neg (by omega)]
    omega

theorem readSrc_flatten (room : Nat) (src : List (List Nat)) :
    (readSrc room src).1 ++ (readSrc room src).2.flatten = src.flatten := by
  match src with
  | [] => simp [readSrc]
  | c :: rest =>
    simp only [readSrc]
    split
    · simp
    · simp only [List.flatten_cons, ← List.append_assoc, List.take_append_drop]

theorem readSrc_len (room : Nat) (src : List (List Nat)) :
    (readSrc room src).2.length ≤ src.length := by
  match src with
  | [] => simp [readSrc]
  | c :: rest =>
    simp only [readSrc]
    split <;> simp

theorem readSrc_chunks (room : Nat) (src : List (List Nat))
    (h : ∀ c ∈ src, c ≠ []) : ∀ c ∈ (readSrc room src).2, c ≠ [] := by
  match src with
  | [] => simp [readSrc]
  | c :: rest =>
    simp only [readSrc]
    split
    · exact fun x hx => h x (List.mem_cons_of_mem c hx)
    · rename_i hdrop
      intro x hx
      rcases List.mem_cons.mp hx with h1 | h1
      · subst h1; exact hdrop
      · exact h x (List.mem_cons_of_mem c h1)

theorem refillIf_flatten (buf : List Nat) (src : List (List Nat)) :
    (refillIf buf src).1 ++ (refillIf buf src).2.flatten = buf ++ src.flatten := by
  unfold refillIf
  split
  · rw [List.append_assoc, readSrc_flatten]
  · rfl

theorem refillIf_len (buf : List Nat) (src : List (List Nat)) :
    (refillIf buf src).2.length ≤ src.length := by
  unfold refillIf
  split
  · exact readSrc_len _ _
  · exact le_refl _

theorem refillIf_chunks (buf : List Nat) (src : List (List Nat))
    (h : ∀ c ∈ src, c ≠ []) : ∀ c ∈ (refillIf buf src).2, c ≠ [] := by
  unfold refillIf
  split
  · exact readSrc_chunks _ _ h
  · exact h
theorem readSrc_nil (room : Nat) : readSrc room [] = ([], []) := rfl

theorem readSrc_cons_small {room : Nat} {c : List Nat} (rest : List (List Nat))
    (h : c.drop room = []) : readSrc room (c :: rest) = (c, rest) := by
  simp only [readSrc]
  rw [if_pos h]

theorem readSrc_cons_big {room : Nat} {c : List Nat} (rest : List (List Nat))
    (h : c.drop room ≠ []) :
    readSrc room (c :: rest) = (c.take room, c.drop room :: rest) := by
  simp only [readSrc]
  rw [if_neg h]

theorem refillIf_lt {buf : List Nat} (src : List (List Nat))
    (h : buf.length < BUFFER_SIZE / 2) :
    refillIf buf src = (buf ++ (readSrc (BUFFER_SIZE - buf.length) src).1,
                        (readSrc (BUFFER_SIZE - buf.length) src).2) := by
  unfold refillIf
  rw [if_pos h]

theorem refillIf_ge {buf : List Nat} (src : List (List Nat))
    (h : ¬ buf.length < BUFFER_SIZE / 2) : refillIf buf src = (buf, src) := by
  unfold refillIf
  rw [if_neg h]

theorem refillIf_nil_src (buf : List Nat) : (refillIf buf []).2 = [] := by
  by_cases h : buf.length < BUFFER_SIZE / 2
  · rw [refillIf_lt [] h, readSrc_nil]
  · rw [refillIf_ge [] h]

theorem refillIf_ne_nil (buf : List Nat) (src : List (List Nat))
    (hnz : buf ++ src.flatten ≠ []) (hchunks : ∀ c ∈ src, c ≠ []) :
    (refillIf buf src).1 ≠ [] := by
  by_cases h : buf.length < BUFFER_SIZE / 2
  · rw [refillIf_lt src h]
    cases src with
    | nil =>
      rw [readSrc_nil]
      simpa using hnz
    | cons c rest =>
      have hc : c ≠ [] := hchunks c (List.mem_cons_self c rest)
      by_cases hdrop : c.drop (BUFFER_SIZE - buf.length) = []
      · rw [readSrc_cons_small rest hdrop]
        simp [hc]
      · rw [readSrc_cons_big rest hdrop]
        have hroom : BUFFER_SIZE - buf.length ≠ 0 := by
          simp only [BUFFER_SIZE] at h ⊢
          omega
        simp [List.take_eq_nil_iff, hc, hroom]
  · rw [refillIf_ge src h]
    intro habs
    have habs2 : buf = [] := habs
    rw [habs2] at h
    simp [BUFFER_SIZE] at h

theorem refillIf_small_src (buf : List Nat) (src : List (List Nat))
    (hsmall : (refillIf buf src).1.length < BUFFER_SIZE / 2) :
    (refillIf buf src).2.length + 1 ≤ src.length ∨ src = [] := by
  by_cases h : buf.length < BUFFER_SIZE / 2
  · cases src with
    | nil => exact Or.inr rfl
    | cons c rest =>
      left
      rw [refillIf_lt (c :: rest) h] at hsmall ⊢
      by_cases hdrop : c.drop (BUFFER_SIZE - buf.length) = []
      · rw [readSrc_cons_small rest hdrop]
        simp
      · exfalso
        rw [readSrc_cons_big rest hdrop] at hsmall
        rw [List.drop_eq_nil_iff] at hdrop
        push_neg at hdrop
        simp only [List.length_append, List.length_take] at hsmall
        simp only [BUFFER_SIZE] at hsmall h hdrop
        omega
  · rw [refillIf_ge src h] at hsmall
    exact absurd hsmall h

theorem replayStep_nil_buf {buf : List Nat} {src src1 : List (List Nat)}
    {msgs : List (List Nat)} {diags : List Nat}
    (hpr : refillIf buf src = ([], src1)) :
    replayStep buf src msgs diags = .halt ⟨msgs.reverse, diags.reverse, false⟩ := by
  unfold replayStep
  rw [hpr]

theorem replayStep_cons {buf : List Nat} {src src1 : List (List Nat)}
    {msgs : List (List Nat)} {diags : List Nat} {t : Nat} {rest : List Nat}
    (hpr : refillIf buf src = (t :: rest, src1)) :
    replayStep buf src msgs diags =
      (if ITCH_MSG_LENGTHS t = 0 then
        .next rest src1 msgs (t :: diags)
      else if (t :: rest).length < ITCH_MSG_LENGTHS t then
        match readSrc (BUFFER_SIZE - (t :: rest).length) src1 with
        | ([], _) => .halt ⟨msgs.reverse, diags.reverse, false⟩
        | (chunk, src2) =>
          if ((t :: rest) ++ chunk).length < ITCH_MSG_LENGTHS t then
            .halt ⟨msgs.reverse, diags.reverse, true⟩
          else
            .next (((t :: rest) ++ chunk).drop (ITCH_MSG_LENGTHS t)) src2
                  ((((t :: rest) ++ chunk).take (ITCH_MSG_LENGTHS t)) :: msgs)
                  diags
      else
        .next ((t :: rest).drop (ITCH_MSG_LENGTHS t)) src1
              (((t :: rest).take (ITCH_MSG_LENGTHS t)) :: msgs) diags) := by
  unfold replayStep
  rw [hpr]

theorem replayStep_good_nil (buf : List Nat) (src : List (List Nat))
    (msgs : List (List Nat)) (diags : List Nat)
    (hjoin : buf ++ src.flatten = []) :
    replayStep buf src msgs diags = .halt ⟨msgs.reverse, diags.reverse, false⟩ := by
  rcases List.append_eq_nil.mp hjoin with ⟨hbuf, hflat⟩
  subst hbuf
  have hlt : ([] : List Nat).length < BUFFER_SIZE / 2 := by simp [BUFFER_SIZE]
  cases src with
  | nil =>
    exact replayStep_nil_buf (by rw [refillIf_lt [] hlt, readSrc_nil]; rfl)
  | cons c rest =>
    have hc : c = [] := by
      simp only [List.flatten_cons, List.append_eq_nil] at hflat
      exact hflat.1
    subst hc
    refine @replayStep_nil_buf [] ([] :: rest) rest msgs diags ?_
    rw [refillIf_lt ([] :: rest) hlt, readSrc_cons_small rest (by simp)]
    rfl

theorem replayStep_cons_unknown {buf : List Nat} {src src1 : List (List Nat)}
    {msgs : List (List Nat)} {diags : List Nat} {t : Nat} {rest : List Nat}
    (hpr : refillIf buf src = (t :: rest, src1))
    (hL : ITCH_MSG_LENGTHS t = 0) :
    replayStep buf src msgs diags = .next rest src1 msgs (t :: diags) := by
  rw [replayStep_cons hpr, if_pos hL]

theorem replayStep_cons_emit {buf : List Nat} {src src1 : List (List Nat)}
    {msgs : List (List Nat)} {diags : List Nat} {t : Nat} {rest : List Nat}
    (hpr : refillIf buf src = (t :: rest, src1))
    (hL : ITCH_MSG_LENGTHS t ≠ 0)
    (hge : ¬ (t :: rest).length < ITCH_MSG_LENGTHS t) :
    replayStep buf src msgs diags =
      .next ((t :: rest).drop (ITCH_MSG_LENGTHS t)) src1
            (((t :: rest).take (ITCH_MSG_LENGTHS t)) :: msgs) diags := by
  rw [replayStep_cons hpr, if_neg hL, if_neg hge]

theorem replayStep_cons_eof_read {buf : List Nat} {src src1 src2 : List (List Nat)}
    {msgs : List (List Nat)} {diags : List Nat} {t : Nat} {rest : List Nat}
    (hpr : refillIf buf src = (t :: rest, src1))
    (hL : ITCH_MSG_LENGTHS t ≠ 0)
    (hshort : (t :: rest).length < ITCH_MSG_LENGTHS t)
    (hq : readSrc (BUFFER_SIZE - (t :: rest).length) src1 = ([], src2)) :
    replayStep buf src msgs diags = .halt ⟨msgs.reverse, diags.reverse, false⟩ := by
  rw [replayStep_cons hpr, if_neg hL, if_pos hshort, hq]

theorem replayStep_cons_short_read {buf : List Nat} {src src1 src2 : List (List Nat)}
    {msgs : List (List Nat)} {diags : List Nat} {t x : Nat} {rest xs : List Nat}
    (hpr : refillIf buf src = (t :: rest, src1))
    (hL : ITCH_MSG_LENGTHS t ≠ 0)
    (hshort : (t :: rest).length < ITCH_MSG_LENGTHS t)
    (hq : readSrc (BUFFER_SIZE - (t :: rest).length) src1 = (x :: xs, src2)) :
    replayStep buf src msgs diags =
      (if ((t :: rest) ++ (x :: xs)).length < ITCH_MSG_LENGTHS t then
        .halt ⟨msgs.reverse, diags.reverse, true⟩
      else
        .next (((t :: rest) ++ (x :: xs)).drop (ITCH_MSG_LENGTHS t)) src2
              ((((t :: rest) ++ (x :: xs)).take (ITCH_MSG_LENGTHS t)) :: msgs)
              diags) := by
  rw [replayStep_cons hpr, if_neg hL, if_pos hshort, hq]


/-- In a state whose residual stream is a well-formed message `m` followed by
the concatenation of `ms`, one loop iteration emits exactly `m` and moves to a
state whose residual stream is the concatenation of `ms` (sources of at most
two chunks, all nonempty). -/
theorem replayStep_good_cons (m : List Nat) (ms : List (List Nat))
    (buf : List Nat) (src : List (List Nat))
    (msgs : List (List Nat)) (diags : List Nat)
    (hwf : WFmsg m)
    (hjoin : buf ++ src.flatten = m ++ ms.flatten)
    (hsrc2 : src.length ≤ 2)
    (hne : ∀ c ∈ src, c ≠ []) :
    ∃ buf2 src2,
      replayStep buf src msgs diags = .next buf2 src2 (m :: msgs) diags ∧
      buf2 ++ src2.flatten = ms.flatten ∧ src2.length ≤ 2 ∧
      (∀ c ∈ src2, c ≠ []) := by
  obtain ⟨hm0, hmL, hmlen⟩ := hwf
  obtain ⟨t, mrest, rfl⟩ : ∃ t mrest, m = t :: mrest := by
    cases m with
    | nil => exact absurd rfl hm0
    | cons a b => exact ⟨a, b, rfl⟩
  simp only [List.headI] at hmL hmlen
  rcases hpr : refillIf buf src with ⟨buf1, src1⟩
  have hb1 : buf1 ≠ [] := by
    have h := refillIf_ne_nil buf src (by rw [hjoin]; simp) hne
    rwa [hpr] at h
  have hflat : buf1 ++ src1.flatten = (t :: mrest) ++ ms.flatten := by
    have h := refillIf_flatten buf src
    rw [hpr] at h
    rw [show ((buf1, src1).1 : List Nat) = buf1 from rfl,
        show ((buf1, src1).2 : List (List Nat)) = src1 from rfl] at h
    rw [h, hjoin]
  have hlen1 : src1.length ≤ 2 := by
    have h := refillIf_len buf src
    rw [hpr] at h
    exact le_trans h hsrc2
  have hne1 : ∀ c ∈ src1, c ≠ [] := by
    have h := refillIf_chunks buf src hne
    rwa [hpr] at h
  obtain ⟨t1, rest1, rfl⟩ : ∃ a l, buf1 = a :: l := by
    cases buf1 with
    | nil => exact absurd rfl hb1
    | cons a l => exact ⟨a, l, rfl⟩
  have ht1 : t1 = t := by
    rw [List.cons_append, List.cons_append] at hflat
    injection hflat with h1 _
  subst ht1
  have hLle : ITCH_MSG_LENGTHS t1 ≤ 50 := ITCH_MSG_LENGTHS_le_50 t1
  have hmlen2 : (t1 :: mrest).length = ITCH_MSG_LENGTHS t1 := hmlen
  by_cases hge : (t1 :: rest1).length < ITCH_MSG_LENGTHS t1
  · -- resident < L: the inner refill must complete the message
    have hsm : (t1 :: rest1).length < BUFFER_SIZE / 2 := by
      simp only [BUFFER_SIZE]
      omega
    have hsmall1 : src1.length ≤ 1 := by
      have h := refillIf_small_src buf src (by rw [hpr]; exact hsm)
      rw [hpr] at h
      rcases h with h | h
      · have h2 : src1.length + 1 ≤ src.length := h
        omega
      · subst h
        have h2 := refillIf_nil_src buf
        rw [hpr] at h2
        have h3 : src1 = [] := h2
        subst h3
        simp
    cases src1 with
    | nil =>
      exfalso
      simp only [List.flatten_nil, List.append_nil] at hflat
      have hlen : (t1 :: rest1).length = ((t1 :: mrest) ++ ms.flatten).length := by
        rw [hflat]
      simp only [List.length_append, List.length_cons] at hlen hge hmlen2
      omega
    | cons c2 rest2 =>
      have hrest2 : rest2 = [] := by
        cases rest2 with
        | nil => rfl
        | cons a b => simp at hsmall1
      subst hrest2
      have hc2 : c2 ≠ [] := hne1 c2 (List.mem_cons_self c2 [])
      have hflat2 : (t1 :: rest1) ++ c2 = (t1 :: mrest) ++ ms.flatten := by
        simpa using hflat
      have hmlenL : (t1 :: mrest).length = ITCH_MSG_LENGTHS t1 := hmlen2
      by_cases hdrop2 : c2.drop (BUFFER_SIZE - (t1 :: rest1).length) = []
      · -- the read hands over the whole remaining chunk
        obtain ⟨x, xs, rfl⟩ : ∃ a l, c2 = a :: l := by
          cases c2 with
          | nil => exact absurd rfl hc2
          | cons a l => exact ⟨a, l, rfl⟩
        have hq := @readSrc_cons_small (BUFFER_SIZE - (t1 :: rest1).length) (x :: xs)
          ([] : List (List Nat)) hdrop2
        have hstep := @replayStep_cons_short_read buf src [x :: xs] [] msgs diags
          t1 x rest1 xs hpr hmL hge hq
        have hlong : ¬ ((t1 :: rest1) ++ (x :: xs)).length < ITCH_MSG_LENGTHS t1 := by
          rw [hflat2]
          simp only [List.length_append, List.length_cons] at hmlenL ⊢
          omega
        rw [if_neg hlong] at hstep
        refine ⟨ms.flatten, [], ?_, by simp, by simp, by simp⟩
        rw [hstep, hflat2, List.take_left' hmlenL, List.drop_left' hmlenL]
      · -- the read fills the buffer to capacity
        have hchunkne : c2.take (BUFFER_SIZE - (t1 :: rest1).length) ≠ [] := by
          intro habs
          rw [List.take_eq_nil_iff] at habs
          rcases habs with h1 | h1
          · simp only [List.length_cons, BUFFER_SIZE] at hsm h1
            omega
          · exact hc2 h1
        obtain ⟨y, ys, hyys⟩ : ∃ a l,
            c2.take (BUFFER_SIZE - (t1 :: rest1).length) = a :: l := by
          cases htk : c2.take (BUFFER_SIZE - (t1 :: rest1).length) with
          | nil => exact absurd htk hchunkne
          | cons a l => exact ⟨a, l, rfl⟩
        have hq := @readSrc_cons_big (BUFFER_SIZE - (t1 :: rest1).length) c2
          ([] : List (List Nat)) hdrop2
        rw [hyys] at hq
        have hstep := @replayStep_cons_short_read buf src [c2]
          [c2.drop (BUFFER_SIZE - (t1 :: rest1).length)] msgs diags
          t1 y rest1 ys hpr hmL hge hq
        have hylen : (y :: ys).length = BUFFER_SIZE - (t1 :: rest1).length := by
          rw [← hyys, List.length_take]
          rw [List.drop_eq_nil_iff] at hdrop2
          push_neg at hdrop2
          omega
        have hlong : ¬ ((t1 :: rest1) ++ (y :: ys)).length < ITCH_MSG_LENGTHS t1 := by
          rw [List.length_append, hylen]
          simp only [List.length_cons, BUFFER_SIZE] at hge hsm ⊢
          omega
        rw [if_neg hlong] at hstep
        have hall : ((t1 :: rest1) ++ (y :: ys)) ++
            (c2.drop (BUFFER_SIZE - (t1 :: rest1).length)) =
            (t1 :: mrest) ++ ms.flatten := by
          rw [← hflat2, List.append_assoc, ← hyys, List.take_append_drop]
        have hLlen : ITCH_MSG_LENGTHS t1 ≤ ((t1 :: rest1) ++ (y :: ys)).length := by
          omega
        refine ⟨((t1 :: rest1) ++ (y :: ys)).drop (ITCH_MSG_LENGTHS t1),
                [c2.drop (BUFFER_SIZE - (t1 :: rest1).length)], ?_, ?_, by simp, ?_⟩
        · rw [hstep]
          have htake : ((t1 :: rest1) ++ (y :: ys)).take (ITCH_MSG_LENGTHS t1) =
              t1 :: mrest := by
            have h1 : (((t1 :: rest1) ++ (y :: ys)) ++
                (c2.drop (BUFFER_SIZE - (t1 :: rest1).length))).take
                  (ITCH_MSG_LENGTHS t1) = t1 :: mrest := by
              rw [hall, List.take_left' hmlenL]
            rw [List.take_append_of_le_length hLlen] at h1
            exact h1
          rw [htake]
        · have h1 : (((t1 :: rest1) ++ (y :: ys)) ++
              (c2.drop (BUFFER_SIZE - (t1 :: rest1).length))).drop
                (ITCH_MSG_LENGTHS t1) = ms.flatten := by
            rw [hall, List.drop_left' hmlenL]
          rw [List.drop_append_of_le_length hLlen] at h1
          simpa using h1
        · intro c hc
          rcases List.mem_cons.mp hc with h1 | h1
          · subst h1; exact hdrop2
          · simp at h1
  · -- resident ≥ L: emit directly from the buffer
    have hstep := @replayStep_cons_emit buf src src1 msgs diags t1 rest1 hpr hmL hge
    have hLlen : ITCH_MSG_LENGTHS t1 ≤ (t1 :: rest1).length := by omega
    have htake : (t1 :: rest1).take (ITCH_MSG_LENGTHS t1) = t1 :: mrest := by
      have h1 : ((t1 :: rest1) ++ src1.flatten).take (ITCH_MSG_LENGTHS t1) =
          t1 :: mrest := by
        rw [hflat, List.take_left' hmlen2]
      rw [List.take_append_of_le_length hLlen] at h1
      exact h1
    refine ⟨(t1 :: rest1).drop (ITCH_MSG_LENGTHS t1), src1, ?_, ?_, hlen1, hne1⟩
    · rw [hstep, htake]
    · have h1 : ((t1 :: rest1) ++ src1.flatten).drop (ITCH_MSG_LENGTHS t1) =
          ms.flatten := by
        rw [hflat, List.drop_left' hmlen2]
      rw [List.drop_append_of_le_length hLlen] at h1
      exact h1

/-- Running the loop from any state whose residual stream is the
concatenation of well-formed messages `ms` (source of at most two nonempty
chunks) emits exactly `ms`, no diagnostics, and no truncation report. -/
theorem replayLoop_good (ms : List (List Nat)) :
    ∀ (buf : List Nat) (src : List (List Nat))
      (msgs : List (List Nat)) (diags : List Nat),
      (∀ x ∈ ms, WFmsg x) →
      buf ++ src.flatten = ms.flatten →
      src.length ≤ 2 →
      (∀ c ∈ src, c ≠ []) →
      replayLoop buf src msgs diags =
        ⟨msgs.reverse ++ ms, diags.reverse, false⟩ := by
  induction ms with
  | nil =>
    intro buf src msgs diags _ hjoin _ _
    rw [replayLoop_eq_of_halt (replayStep_good_nil buf src msgs diags (by simpa using hjoin))]
    simp
  | cons m ms ih =>
    intro buf src msgs diags hwf hjoin hlen hne
    obtain ⟨buf2, src2, hstep, hjoin2, hlen2, hne2⟩ :=
      replayStep_good_cons m ms buf src msgs diags
        (hwf m (List.mem_cons_self m ms)) hjoin hlen hne
    rw [replayLoop_eq_of_next hstep,
        ih buf2 src2 (m :: msgs) diags
          (fun x hx => hwf x (List.mem_cons_of_mem m hx)) hjoin2 hlen2 hne2]
    simp

theorem bswap64_bytes (b0 b1 b2 b3 b4 b5 b6 b7 : Nat)
    (h0 : b0 < 256) (h1 : b1 < 256) (h2 : b2 < 256) (h3 : b3 < 256)
    (h4 : b4 < 256) (h5 : b5 < 256) (h6 : b6 < 256) (h7 : b7 < 256) :
    bswap64 (b0 + 256 * b1 + 65536 * b2 + 16777216 * b3 + 4294967296 * b4 +
             1099511627776 * b5 + 281474976710656 * b6 +
             72057594037927936 * b7) =
    b7 + 256 * b6 + 65536 * b5 + 16777216 * b4 + 4294967296 * b3 +
    1099511627776 * b2 + 281474976710656 * b1 + 72057594037927936 * b0 := by
  unfold bswap64
  norm_num
  have e0 : (b0 + 256 * b1 + 65536 * b2 + 16777216 * b3 + 4294967296 * b4 +
      1099511627776 * b5 + 281474976710656 * b6 +
      72057594037927936 * b7) % 256 = b0 := by omega
  have e1 : (b0 + 256 * b1 + 65536 * b2 + 16777216 * b3 + 4294967296 * b4 +
      1099511627776 * b5 + 281474976710656 * b6 +
      72057594037927936 * b7) / 256 % 256 = b1 := by omega
  have e2 : (b0 + 256 * b1 + 65536 * b2 + 16777216 * b3 + 4294967296 * b4 +
      1099511627776 * b5 + 281474976710656 * b6 +
      72057594037927936 * b7) / 65536 % 256 = b2 := by omega
  have e3 : (b0 + 256 * b1 + 65536 * b2 + 16777216 * b3 + 4294967296 * b4 +
      1099511627776 * b5 + 281474976710656 * b6 +
      72057594037927936 * b7) / 16777216 % 256 = b3 := by omega
  have e4 : (b0 + 256 * b1 + 65536 * b2 + 16777216 * b3 + 4294967296 * b4 +
      1099511627776 * b5 + 281474976710656 * b6 +
      72057594037927936 * b7) / 4294967296 % 256 = b4 := by omega
  have e5 : (b0 + 256 * b1 + 65536 * b2 + 16777216 * b3 + 4294967296 * b4 +
      1099511627776 * b5 + 281474976710656 * b6 +
      72057594037927936 * b7) / 1099511627776 % 256 = b5 := by omega
  have e6 : (b0 + 256 * b1 + 65536 * b2 + 16777216 * b3 + 4294967296 * b4 +
      1099511627776 * b5 + 281474976710656 * b6 +
      72057594037927936 * b7) / 281474976710656 % 256 = b6 := by omega
  have e7 : (b0 + 256 * b1 + 65536 * b2 + 16777216 * b3 + 4294967296 * b4 +
      1099511627776 * b5 + 281474976710656 * b6 +
      72057594037927936 * b7) / 72057594037927936 % 256 = b7 := by omega
  rw [e0, e1, e2, e3, e4, e5, e6, e7]
  ring

theorem load64le_cons (b0 b1 b2 b3 b4 b5 b6 b7 : Nat) (rest : List Nat) :
    load64le (b0 :: b1 :: b2 :: b3 :: b4 :: b5 :: b6 :: b7 :: rest) =
    b0 + 256 * b1 + 65536 * b2 + 16777216 * b3 + 4294967296 * b4 +
    1099511627776 * b5 + 281474976710656 * b6 +
    72057594037927936 * b7 := by
  simp only [load64le, List.getD]
  norm_num

/-! ## Claim theorems -/

set_option maxRecDepth 8192 in
/-- C2: the message-type-to-length lookup is total on bytes, returns exactly
the canonical table values (S=12, R=39, H=25, Y=20, L=26, V=35, W=12, K=28,
A=36, F=40, E=31, C=36, X=23, D=19, U=35, P=44, Q=40, B=19, I=50, N=20) and
0 for every other byte, and the server array table and the parser switch
agree on every possible byte. -/
theorem c2_length_table_agreement :
    (∀ t, t < 256 → ITCH_MSG_LENGTHS t = message_length_by_type t) ∧
    message_length_by_type 83 = 12 ∧ message_length_by_type 82 = 39 ∧
    message_length_by_type 72 = 25 ∧ message_length_by_type 89 = 20 ∧
    message_length_by_type 76 = 26 ∧ message_length_by_type 86 = 35 ∧
    message_length_by_type 87 = 12 ∧ message_length_by_type 75 = 28 ∧
    message_length_by_type 65 = 36 ∧ message_length_by_type 70 = 40 ∧
    message_length_by_type 69 = 31 ∧ message_length_by_type 67 = 36 ∧
    message_length_by_type 88 = 23 ∧ message_length_by_type 68 = 19 ∧
    message_length_by_type 85 = 35 ∧ message_length_by_type 80 = 44 ∧
    message_length_by_type 81 = 40 ∧ message_length_by_type 66 = 19 ∧
    message_length_by_type 73 = 50 ∧ message_length_by_type 78 = 20 ∧
    (∀ t, t < 256 →
      t ∉ [83, 82, 72, 89, 76, 86, 87, 75, 65, 70, 69, 67, 88, 68, 85,
           80, 81, 66, 73, 78] →
      message_length_by_type t = 0) ∧
    (∀ t, t < 256 → get_itch_message_length t = message_length_by_type t ∧
      get_message_length t = ITCH_MSG_LENGTHS t) := by
  decide

/-- Witness for C2 at the concrete byte `'S' = 83`. -/
theorem c2_length_table_agreement_witness :
    ITCH_MSG_LENGTHS 83 = message_length_by_type 83 ∧
    message_length_by_type 83 = 12 :=
  ⟨c2_length_table_agreement.1 83 (by norm_num), c2_length_table_agreement.2.1⟩

/-- C3: for every input with at least 8 readable bytes, the timestamp decoder
returns the unsigned big-endian value of the first 6 bytes — a 64-bit result
whose top 16 bits are zero (value < 2^48) — and this equals byte-swapping the
8 bytes of (first 6 bytes ‖ 0x0000) and shifting right by 16; the parser's
`parse_timestamp` computes the same function. -/
theorem c3_timestamp_decode (b : List Nat)
    (hlen : 8 ≤ b.length) (hbytes : ∀ x ∈ b.take 8, x < 256) :
    read_timestamp b = beValue (b.take 6) ∧
    read_timestamp b < 2 ^ 48 ∧
    read_timestamp b = bswap64 (load64le (b.take 6 ++ [0, 0])) / 2 ^ 16 ∧
    parse_timestamp b = read_timestamp b := by
  rcases b with _ | ⟨b0, b⟩; · simp at hlen
  rcases b with _ | ⟨b1, b⟩; · simp at hlen
  rcases b with _ | ⟨b2, b⟩; · simp at hlen
  rcases b with _ | ⟨b3, b⟩; · simp at hlen
  rcases b with _ | ⟨b4, b⟩; · simp at hlen
  rcases b with _ | ⟨b5, b⟩; · simp at hlen
  rcases b with _ | ⟨b6, b⟩; · simp at hlen
  rcases b with _ | ⟨b7, b⟩; · simp at hlen
  have h0 : b0 < 256 := hbytes b0 (by simp)
  have h1 : b1 < 256 := hbytes b1 (by simp)
  have h2 : b2 < 256 := hbytes b2 (by simp)
  have h3 : b3 < 256 := hbytes b3 (by simp)
  have h4 : b4 < 256 := hbytes b4 (by simp)
  have h5 : b5 < 256 := hbytes b5 (by simp)
  have h6 : b6 < 256 := hbytes b6 (by simp)
  have h7 : b7 < 256 := hbytes b7 (by simp)
  have htake : (b0 :: b1 :: b2 :: b3 :: b4 :: b5 :: b6 :: b7 :: b).take 6 =
      [b0, b1, b2, b3, b4, b5] := rfl
  have hbe : beValue [b0, b1, b2, b3, b4, b5] =
      ((((b0 * 256 + b1) * 256 + b2) * 256 + b3) * 256 + b4) * 256 + b5 := by
    simp [beValue]
  have hload2 : load64le ([b0, b1, b2, b3, b4, b5] ++ [0, 0]) =
      b0 + 256 * b1 + 65536 * b2 + 16777216 * b3 + 4294967296 * b4 +
      1099511627776 * b5 + 281474976710656 * 0 + 72057594037927936 * 0 := by
    simp only [List.cons_append, List.nil_append]
    exact load64le_cons b0 b1 b2 b3 b4 b5 0 0 []
  refine ⟨?_, ?_, ?_, rfl⟩
  · rw [read_timestamp, load64le_cons, bswap64_bytes b0 b1 b2 b3 b4 b5 b6 b7
      h0 h1 h2 h3 h4 h5 h6 h7, htake, hbe]
    norm_num
    omega
  · rw [read_timestamp, load64le_cons, bswap64_bytes b0 b1 b2 b3 b4 b5 b6 b7
      h0 h1 h2 h3 h4 h5 h6 h7]
    norm_num
    omega
  · rw [read_timestamp, load64le_cons, bswap64_bytes b0 b1 b2 b3 b4 b5 b6 b7
      h0 h1 h2 h3 h4 h5 h6 h7, htake, hload2,
      bswap64_bytes b0 b1 b2 b3 b4 b5 0 0 h0 h1 h2 h3 h4 h5
        (by norm_num) (by norm_num)]
    norm_num
    omega

/-- Witness for C3 at the concrete timestamp bytes
1F 1D 36 45 4D C0 (= 34200000000000 ns) followed by two slack bytes. -/
theorem c3_timestamp_decode_witness :
    read_timestamp [31, 29, 54, 69, 77, 192, 7, 9] =
      beValue ([31, 29, 54, 69, 77, 192, 7, 9].take 6) ∧
    read_timestamp [31, 29, 54, 69, 77, 192, 7, 9] < 2 ^ 48 ∧
    read_timestamp [31, 29, 54, 69, 77, 192, 7, 9] =
      bswap64 (load64le ([31, 29, 54, 69, 77, 192, 7, 9].take 6 ++ [0, 0])) /
        2 ^ 16 ∧
    parse_timestamp [31, 29, 54, 69, 77, 192, 7, 9] =
      read_timestamp [31, 29, 54, 69, 77, 192, 7, 9] :=
  c3_timestamp_decode [31, 29, 54, 69, 77, 192, 7, 9] (by norm_num) (by decide)

set_option maxRecDepth 8192 in
/-- C10: the dispatcher `parse_itch_message` has dedicated decoders exactly
for the 13 types S, R, H, A, F, E, C, X, D, U, P, Q, B; the seven other
table-defined types Y, L, V, W, K, I, N fall into the unknown branch and
print the unknown-message diagnostic even though `get_itch_message_length`
returns a nonzero length for them. -/
theorem c10_dispatch_subset :
    (∀ t, t < 256 → (parse_itch_message_dispatch t = .handled t ↔
        t ∈ [83, 82, 72, 65, 70, 69, 67, 88, 68, 85, 80, 81, 66])) ∧
    (∀ t ∈ [89, 76, 86, 87, 75, 73, 78],
      parse_itch_message_dispatch t = .unknownDiag t ∧
      get_itch_message_length t ≠ 0 ∧ ITCH_MSG_LENGTHS t ≠ 0) := by
  decide

/-- Witness for C10 at the concrete byte `'Y' = 89`. -/
theorem c10_dispatch_subset_witness :
    parse_itch_message_dispatch 89 = .unknownDiag 89 ∧
    get_itch_message_length 89 ≠ 0 ∧ ITCH_MSG_LENGTHS 89 ≠ 0 :=
  c10_dispatch_subset.2 89 (by decide)

/-- C1: for every input byte sequence formed by concatenating well-formed
ITCH messages (type byte in the table, length equal to the table length), the
framing loop emits exactly those messages, in the same order, with no
diagnostics and no truncation, and every emitted message's length equals the
length dictated by its type byte. -/
theorem c1_framer_round_trip (msgs : List (List Nat))
    (h : ∀ m ∈ msgs, WFmsg m) :
    replay_itch_file [msgs.flatten] = ⟨msgs, [], false⟩ ∧
    ∀ m ∈ (replay_itch_file [msgs.flatten]).msgs,
      m.length = ITCH_MSG_LENGTHS m.headI := by
  have hmain : replay_itch_file [msgs.flatten] = ⟨msgs, [], false⟩ := by
    by_cases hnil : msgs.flatten = []
    · have hmsgs : msgs = [] := by
        cases msgs with
        | nil => rfl
        | cons m ms =>
          exfalso
          have hm := h m (List.mem_cons_self m ms)
          rw [List.flatten_cons] at hnil
          exact hm.1 (List.append_eq_nil.mp hnil).1
      subst hmsgs
      exact replayLoop_eq_of_halt (r := ⟨[], [], false⟩) (by decide)
    · unfold replay_itch_file
      have hgood := replayLoop_good msgs [] [msgs.flatten] [] [] h
        (by simp) (by norm_num) (by simpa using hnil)
      simpa using hgood
  refine ⟨hmain, ?_⟩
  rw [hmain]
  intro m hm
  exact (h m hm).2.2

/-- Witness for C1: a System Event message followed by an Order Delete
message round-trip through the framer. -/
theorem c1_framer_round_trip_witness :
    replay_itch_file
      [[[83, 0, 1, 0, 0, 31, 29, 54, 69, 77, 192, 79],
        [68, 0, 1, 0, 0, 31, 29, 54, 69, 77, 192, 0, 0, 0, 0, 0, 0, 0, 1]].flatten] =
      ⟨[[83, 0, 1, 0, 0, 31, 29, 54, 69, 77, 192, 79],
        [68, 0, 1, 0, 0, 31, 29, 54, 69, 77, 192, 0, 0, 0, 0, 0, 0, 0, 1]],
       [], false⟩ :=
  (c1_framer_round_trip
    [[83, 0, 1, 0, 0, 31, 29, 54, 69, 77, 192, 79],
     [68, 0, 1, 0, 0, 31, 29, 54, 69, 77, 192, 0, 0, 0, 0, 0, 0, 0, 1]]
    (by decide)).1

/-- C6 counterexample: the claim quantifies over partitions into reads of
≥ 0 bytes (and in particular allows any multi-read split).  The well-formed
12-byte System Event stream delivered in three reads of 1, 5 and 6 bytes
yields no framed message (the loop reports an incomplete message, because
the single additional refill still leaves the buffer short), while the same
stream delivered in one read yields the message: the outputs differ. -/
theorem c6_counterexample :
    replay_itch_file [[83], [0, 1, 0, 0, 31], [29, 54, 69, 77, 192, 79]] =
      ⟨[], [], true⟩ ∧
    replay_itch_file [[83, 0, 1, 0, 0, 31, 29, 54, 69, 77, 192, 79]] =
      ⟨[[83, 0, 1, 0, 0, 31, 29, 54, 69, 77, 192, 79]], [], false⟩ ∧
    replay_itch_file [[83], [0, 1, 0, 0, 31], [29, 54, 69, 77, 192, 79]] ≠
      replay_itch_file [[83, 0, 1, 0, 0, 31, 29, 54, 69, 77, 192, 79]] := by
  have h1 : replay_itch_file [[83], [0, 1, 0, 0, 31], [29, 54, 69, 77, 192, 79]] =
      ⟨[], [], true⟩ := by
    unfold replay_itch_file
    exact replayLoop_eq_of_halt (r := ⟨[], [], true⟩) (by decide)
  have h2 : replay_itch_file [[83, 0, 1, 0, 0, 31, 29, 54, 69, 77, 192, 79]] =
      ⟨[[83, 0, 1, 0, 0, 31, 29, 54, 69, 77, 192, 79]], [], false⟩ := by
    unfold replay_itch_file
    rw [replayLoop_eq_of_next
      (b := []) (s := [])
      (m := [[83, 0, 1, 0, 0, 31, 29, 54, 69, 77, 192, 79]]) (d := [])
      (by decide)]
    exact replayLoop_eq_of_halt
      (r := ⟨[[83, 0, 1, 0, 0, 31, 29, 54, 69, 77, 192, 79]], [], false⟩)
      (by decide)
  refine ⟨h1, h2, ?_⟩
  rw [h1, h2]
  simp

/-- C6 amended: framing is invariant for a split of a well-formed stream into
TWO reads at an arbitrary interior byte boundary (and the one-read delivery
gives the same result); the code is not invariant under arbitrary multi-read
chunkings, because a read that leaves the pending message incomplete after
the single additional refill ends the stream (see the counterexample), and a
0-byte read with an empty buffer is treated as end-of-stream. -/
theorem c6_two_read_split (msgs : List (List Nat)) (k : Nat)
    (h : ∀ m ∈ msgs, WFmsg m) (hk0 : 0 < k) (hk : k < msgs.flatten.length) :
    replay_itch_file [msgs.flatten.take k, msgs.flatten.drop k] =
      ⟨msgs, [], false⟩ ∧
    replay_itch_file [msgs.flatten] = ⟨msgs, [], false⟩ := by
  have hnil : msgs.flatten ≠ [] := by
    intro habs
    rw [habs] at hk
    simp at hk
  constructor
  · unfold replay_itch_file
    have hgood := replayLoop_good msgs []
      [msgs.flatten.take k, msgs.flatten.drop k] [] [] h
      (by simp) (by norm_num) ?_
    · simpa using hgood
    · intro c hc
      rcases List.mem_cons.mp hc with h1 | h1
      · subst h1
        intro habs
        rw [List.take_eq_nil_iff] at habs
        rcases habs with h2 | h2
        · omega
        · exact hnil h2
      · have h2 : c = msgs.flatten.drop k := by simpa using h1
        subst h2
        intro habs
        rw [List.drop_eq_nil_iff] at habs
        omega
  · unfold replay_itch_file
    have hgood := replayLoop_good msgs [] [msgs.flatten] [] [] h
      (by simp) (by norm_num) (by simpa using hnil)
    simpa using hgood

/-- Witness for C6 amended: the System Event message split 5/7 (the spec's
S5 scenario) and delivered in one read both produce the single message. -/
theorem c6_two_read_split_witness :
    replay_itch_file
      [([[83, 0, 1, 0, 0, 31, 29, 54, 69, 77, 192, 79]].flatten).take 5,
       ([[83, 0, 1, 0, 0, 31, 29, 54, 69, 77, 192, 79]].flatten).drop 5] =
      ⟨[[83, 0, 1, 0, 0, 31, 29, 54, 69, 77, 192, 79]], [], false⟩ ∧
    replay_itch_file [[[83, 0, 1, 0, 0, 31, 29, 54, 69, 77, 192, 79]].flatten] =
      ⟨[[83, 0, 1, 0, 0, 31, 29, 54, 69, 77, 192, 79]], [], false⟩ :=
  c6_two_read_split [[83, 0, 1, 0, 0, 31, 29, 54, 69, 77, 192, 79]] 5
    (by decide) (by norm_num) (by decide)

/-- C4: whenever the byte at the front of the framer's buffer has table
length 0, the iteration emits a diagnostic carrying that byte value, consumes
exactly one byte from the front (the refill only appends at the back, so the
head is unchanged), emits no framed message for it, and the loop continues
framing the remaining stream. -/
theorem c4_unknown_type_resync (b : Nat) (rest : List Nat)
    (src : List (List Nat)) (msgs : List (List Nat)) (diags : List Nat)
    (hL : ITCH_MSG_LENGTHS b = 0) :
    ∃ buf2 src2,
      refillIf (b :: rest) src = (b :: buf2, src2) ∧
      replayStep (b :: rest) src msgs diags = .next buf2 src2 msgs (b :: diags) ∧
      replayLoop (b :: rest) src msgs diags =
        replayLoop buf2 src2 msgs (b :: diags) := by
  obtain ⟨buf2, src2, hpr⟩ :
      ∃ buf2 src2, refillIf (b :: rest) src = (b :: buf2, src2) := by
    by_cases hlt : (b :: rest).length < BUFFER_SIZE / 2
    · rw [refillIf_lt src hlt]
      exact ⟨rest ++ (readSrc (BUFFER_SIZE - (b :: rest).length) src).1,
             (readSrc (BUFFER_SIZE - (b :: rest).length) src).2, by simp⟩
    · rw [refillIf_ge src hlt]
      exact ⟨rest, src, rfl⟩
  have hstep := @replayStep_cons_unknown (b :: rest) src src2 msgs diags b buf2
    hpr hL
  exact ⟨buf2, src2, hpr, hstep, replayLoop_eq_of_next hstep⟩

/-- Witness for C4 at the concrete unknown byte 0xFF with an exhausted
source. -/
theorem c4_unknown_type_resync_witness :
    ∃ buf2 src2,
      refillIf [255] [] = (255 :: buf2, src2) ∧
      replayStep [255] [] [] [] = .next buf2 src2 [] [255] ∧
      replayLoop [255] [] [] [] = replayLoop buf2 src2 [] [255] :=
  c4_unknown_type_resync 255 [] [] [] [] (by decide)

/-- C5 counterexample: the single byte `'S'` (table length 12) delivered in
one read.  The resident count (1) stays below the length (12) and the source
is at end-of-stream, yet the loop terminates with `report = false`: the
incomplete-message diagnostic is NOT printed (the `bytes_read <= 0` break at
line 178/182 precedes it), contradicting the claim that a truncated trailing
message is reported. -/
theorem c5_counterexample :
    replay_itch_file [[83]] = ⟨[], [], false⟩ ∧
    (replay_itch_file [[83]]).report = false := by
  have h1 : replay_itch_file [[83]] = ⟨[], [], false⟩ := by
    unfold replay_itch_file
    exact replayLoop_eq_of_halt (r := ⟨[], [], false⟩) (by decide)
  exact ⟨h1, by rw [h1]⟩

/-- C5 amended: with resident bytes `t :: rest` short of the table length of
`t`, the loop attempts one additional refill and terminates without emitting
a framed message for the partial bytes, dropping them; the truncated-message
report is printed only when that refill returns SOME bytes and the resident
count is still short — when the refill returns no bytes (end-of-stream, or
an empty then exhausted source) the loop terminates silently with
`report = false`. -/
theorem c5_truncated_tail (t : Nat) (rest : List Nat)
    (msgs : List (List Nat)) (diags : List Nat)
    (hL0 : ITCH_MSG_LENGTHS t ≠ 0)
    (hshort : (t :: rest).length < ITCH_MSG_LENGTHS t) :
    (replayLoop (t :: rest) [] msgs diags =
      ⟨msgs.reverse, diags.reverse, false⟩) ∧
    (∀ c : List Nat, c ≠ [] →
      (t :: rest).length + c.length < ITCH_MSG_LENGTHS t →
      replayLoop (t :: rest) [c] msgs diags =
        ⟨msgs.reverse, diags.reverse, false⟩) ∧
    (∀ c1 c2 : List Nat, c1 ≠ [] → c2 ≠ [] →
      (t :: rest).length + c1.length + c2.length < ITCH_MSG_LENGTHS t →
      replayLoop (t :: rest) [c1, c2] msgs diags =
        ⟨msgs.reverse, diags.reverse, true⟩) := by
  have hLle : ITCH_MSG_LENGTHS t ≤ 50 := ITCH_MSG_LENGTHS_le_50 t
  have hlt : (t :: rest).length < BUFFER_SIZE / 2 := by
    simp only [BUFFER_SIZE]
    omega
  refine ⟨?_, ?_, ?_⟩
  · -- end-of-stream source: silent termination
    have hpr : refillIf (t :: rest) [] = (t :: rest, []) := by
      rw [refillIf_lt [] hlt, readSrc_nil]
      simp
    exact replayLoop_eq_of_halt
      (replayStep_cons_eof_read hpr hL0 hshort (readSrc_nil _))
  · -- one short chunk: the main refill takes it whole, the additional
    -- refill returns nothing: silent termination
    intro c hc hlen
    have hdropc : c.drop (BUFFER_SIZE - (t :: rest).length) = [] := by
      rw [List.drop_eq_nil_iff]
      simp only [List.length_cons, BUFFER_SIZE] at hlt hlen ⊢
      omega
    have hpr : refillIf (t :: rest) [c] = (t :: (rest ++ c), []) := by
      rw [refillIf_lt [c] hlt, readSrc_cons_small [] hdropc]
      simp
    have hshort2 : (t :: (rest ++ c)).length < ITCH_MSG_LENGTHS t := by
      simp only [List.length_cons, List.length_append] at hlen ⊢
      omega
    exact replayLoop_eq_of_halt
      (replayStep_cons_eof_read hpr hL0 hshort2 (readSrc_nil _))
  · -- two short chunks: the additional refill returns bytes but the
    -- resident count stays short: the incomplete-message report is printed
    intro c1 c2 hc1 hc2 hlen
    have hdrop1 : c1.drop (BUFFER_SIZE - (t :: rest).length) = [] := by
      rw [List.drop_eq_nil_iff]
      simp only [List.length_cons, BUFFER_SIZE] at hlt hlen ⊢
      omega
    obtain ⟨z, zs, rfl⟩ : ∃ a l, c2 = a :: l := by
      cases c2 with
      | nil => exact absurd rfl hc2
      | cons a l => exact ⟨a, l, rfl⟩
    have hpr : refillIf (t :: rest) [c1, z :: zs] =
        (t :: (rest ++ c1), [z :: zs]) := by
      rw [refillIf_lt [c1, z :: zs] hlt, readSrc_cons_small [z :: zs] hdrop1]
      simp
    have hshort2 : (t :: (rest ++ c1)).length < ITCH_MSG_LENGTHS t := by
      simp only [List.length_cons, List.length_append] at hlen ⊢
      omega
    have hdrop2 : (z :: zs).drop (BUFFER_SIZE - (t :: (rest ++ c1)).length) = [] := by
      rw [List.drop_eq_nil_iff]
      simp only [List.length_cons, List.length_append, BUFFER_SIZE] at hlen ⊢
      omega
    have hq : readSrc (BUFFER_SIZE - (t :: (rest ++ c1)).length) [z :: zs] =
        (z :: zs, []) := readSrc_cons_small [] hdrop2
    have hstep := @replayStep_cons_short_read (t :: rest) [c1, z :: zs]
      [z :: zs] [] msgs diags t z (rest ++ c1) zs hpr hL0 hshort2 hq
    have hbig : ((t :: (rest ++ c1)) ++ (z :: zs)).length < ITCH_MSG_LENGTHS t := by
      simp only [List.length_cons, List.length_append] at hlen ⊢
      omega
    rw [if_pos hbig] at hstep
    exact replayLoop_eq_of_halt hstep

/-- Witness for C5 amended: buffer `[83]` ('S', length 12); with an exhausted
source the loop ends silently; with two pending 1-byte chunks the refill
succeeds but stays short and the report is printed. -/
theorem c5_truncated_tail_witness :
    replayLoop [83] [] [] [] = ⟨[], [], false⟩ ∧
    replayLoop [83] [[1], [2]] [] [] = ⟨[], [], true⟩ :=
  ⟨(c5_truncated_tail 83 [] [] [] (by decide) (by decide)).1,
   (c5_truncated_tail 83 [] [] [] (by decide) (by decide)).2.2
     [1] [2] (by decide) (by decide) (by decide)⟩

/-- C7 counterexample: one active subscriber whose `send` fails with an error
that is neither `EPIPE` nor `ECONNRESET`.  The claim says the slot is retired
and the socket closed; the code only calls `perror` — the slot stays active
and nothing is closed. -/
theorem c7_counterexample :
    broadcast_message [⟨7, true⟩] [1, 2, 3] (fun _ => .otherError) =
      ⟨[⟨7, true⟩], [], [(7, [1, 2, 3])]⟩ ∧
    (broadcast_message [⟨7, true⟩] [1, 2, 3] (fun _ => .otherError)).clients ≠
      [⟨7, false⟩] ∧
    (broadcast_message [⟨7, true⟩] [1, 2, 3] (fun _ => .otherError)).closed = [] := by
  refine ⟨rfl, ?_, rfl⟩
  intro habs
  have h2 : (⟨7, true⟩ : Client) = ⟨7, false⟩ := by
    have h3 : (broadcast_message [⟨7, true⟩] [1, 2, 3]
        (fun _ => SendOutcome.otherError)).clients = [⟨7, true⟩] := rfl
    rw [h3] at habs
    exact List.head_eq_of_cons_eq habs
  have h4 : true = false := congrArg Client.active h2
  exact Bool.noConfusion h4

/-- C7 amended: `deliver` attempts the write of the exact byte slice on every
active subscriber (and only those), in slot order, and returns only after all
attempts; a subscriber whose write fails with a DISCONNECT-class error
(`EPIPE`/`ECONNRESET`) is marked inactive and its socket closed (once per
call, and at most once overall since the slot is inactive afterwards); a
subscriber whose write fails with any OTHER error is only logged: its slot
stays active and its socket is not closed. -/
theorem c7_deliver_retire (clients : List Client) (msg : List Nat)
    (send : Nat → SendOutcome) :
    (broadcast_message clients msg send).attempts =
      (clients.filter (fun c => c.active)).map (fun c => (c.socket_fd, msg)) ∧
    (broadcast_message clients msg send).clients =
      clients.map (fun c =>
        if c.active ∧ send c.socket_fd = .disconnect then ⟨c.socket_fd, false⟩
        else c) ∧
    (broadcast_message clients msg send).closed =
      (clients.filter (fun c =>
        c.active && (send c.socket_fd == SendOutcome.disconnect))).map
        (fun c => c.socket_fd) ∧
    ((clients.map (fun c => c.socket_fd)).Nodup →
      (broadcast_message clients msg send).closed.Nodup) := by
  have hmain : (broadcast_message clients msg send).attempts =
      (clients.filter (fun c => c.active)).map (fun c => (c.socket_fd, msg)) ∧
      (broadcast_message clients msg send).clients =
        clients.map (fun c =>
          if c.active ∧ send c.socket_fd = .disconnect then ⟨c.socket_fd, false⟩
          else c) ∧
      (broadcast_message clients msg send).closed =
        (clients.filter (fun c =>
          c.active && (send c.socket_fd == SendOutcome.disconnect))).map
          (fun c => c.socket_fd) := by
    induction clients with
    | nil => exact ⟨rfl, rfl, rfl⟩
    | cons c cs ih =>
      obtain ⟨ih1, ih2, ih3⟩ := ih
      rcases hact : c.active with _ | _
      · simp only [broadcast_message, hact, Bool.false_eq_true, if_false]
        refine ⟨?_, ?_, ?_⟩
        · simpa [hact] using ih1
        · have : ¬ (c.active ∧ send c.socket_fd = .disconnect) := by
            rw [hact]; rintro ⟨h1, _⟩; exact Bool.false_ne_true h1
          simpa [hact, this] using ih2
        · simpa [hact] using ih3
      · rcases hsend : send c.socket_fd with _ | _ | _
        · simp only [broadcast_message, hact, if_true, hsend]
          refine ⟨?_, ?_, ?_⟩
          · simpa [hact] using ih1
          · have : ¬ (c.active ∧ send c.socket_fd = .disconnect) := by
              rw [hsend]; rintro ⟨_, h2⟩; exact SendOutcome.noConfusion h2
            simpa [hact, this, hsend] using ih2
          · simpa [hact, hsend] using ih3
        · simp only [broadcast_message, hact, if_true, hsend]
          refine ⟨?_, ?_, ?_⟩
          · simpa [hact] using ih1
          · have : c.active ∧ send c.socket_fd = .disconnect := ⟨hact, hsend⟩
            simpa [hact, this, hsend] using ih2
          · simpa [hact, hsend] using ih3
        · simp only [broadcast_message, hact, if_true, hsend]
          refine ⟨?_, ?_, ?_⟩
          · simpa [hact] using ih1
          · have : ¬ (c.active ∧ send c.socket_fd = .disconnect) := by
              rw [hsend]; rintro ⟨_, h2⟩; exact SendOutcome.noConfusion h2
            simpa [hact, this, hsend] using ih2
          · simpa [hact, hsend] using ih3
  refine ⟨hmain.1, hmain.2.1, hmain.2.2, ?_⟩
  intro hnodup
  rw [hmain.2.2]
  have hsub : ((clients.filter (fun c =>
      c.active && (send c.socket_fd == SendOutcome.disconnect))).map
      (fun c => c.socket_fd)).Sublist (clients.map (fun c => c.socket_fd)) :=
    (List.filter_sublist clients).map (fun c => c.socket_fd)
  exact hnodup.sublist hsub

/-- Witness for C7: two subscribers, the first disconnecting and the second
healthy; the theorem applies and the closed list (just fd 5) has no
duplicates. -/
theorem c7_deliver_retire_witness :
    (broadcast_message [⟨5, true⟩, ⟨6, true⟩] [9]
      (fun fd => if fd = 5 then .disconnect else .ok)).closed.Nodup :=
  (c7_deliver_retire [⟨5, true⟩, ⟨6, true⟩] [9]
    (fun fd => if fd = 5 then .disconnect else .ok)).2.2.2 (by decide)

/-- C8 counterexample: `main` invoked with 4 arguments and a parsed speed
multiplier of −1.  The claim says a multiplier ≤ 0 is rejected as an argument
error; the code performs no such check and starts the replay with −1. -/
theorem c8_counterexample :
    server_main_route 4 (-1) = .replay (-1) ∧
    server_main_route 4 (-1) ≠ .usageError := by
  constructor
  · unfold server_main_route
    norm_num
  · unfold server_main_route
    norm_num
    intro habs
    exact MainRoute.noConfusion habs

/-- C8 amended: a non-positive speed multiplier is ACCEPTED: with at least
the file argument present the replay always starts with whatever multiplier
was parsed, and with a multiplier ≤ 0 the pacing condition
`speed_multiplier > 0` (line 199) is never satisfied, so no sleep is ever
performed (the replay runs unpaced). -/
theorem c8_unvalidated_speed (argc : Nat) (s : ℚ)
    (h4 : 4 ≤ argc) (hs : s ≤ 0) :
    server_main_route argc s = .replay s ∧
    ∀ prev cur : Nat, computeSleepNs prev cur s = none := by
  constructor
  · unfold server_main_route
    rw [if_neg (by omega), if_pos h4]
  · intro prev cur
    unfold computeSleepNs
    rw [if_neg ?_]
    rintro ⟨_, _, hm⟩
    exact absurd hm (not_lt.mpr hs)

/-- Witness for C8 amended at `argc = 4`, `speed = -1`. -/
theorem c8_unvalidated_speed_witness :
    server_main_route 4 (-1) = .replay (-1) ∧
    computeSleepNs 5 10 (-1) = none :=
  ⟨(c8_unvalidated_speed 4 (-1) (by norm_num) (by norm_num)).1,
   (c8_unvalidated_speed 4 (-1) (by norm_num) (by norm_num)).2 5 10⟩

/-- C9: for timestamps `t_prev`, `t` with `t > t_prev > 0` and multiplier
`m > 0`, the sleep the pacer performs before the later record is the
truncated quotient capped at 1 second — `min(⌊(t − t_prev)/m⌋, 10^9 ns)` —
hence at most 1 second, and no sleep at all happens when that capped value is
≤ 1 µs (1000 ns). -/
theorem c9_sleep_cap (prev cur : Nat) (m : ℚ)
    (hp : 0 < prev) (hc : prev < cur) (hm : 0 < m) :
    computeSleepNs prev cur m =
      (if 1000 < min ((((cur - prev : Nat) : ℚ) / m).floor.toNat) 1000000000
       then some (min ((((cur - prev : Nat) : ℚ) / m).floor.toNat) 1000000000)
       else none) ∧
    (∀ s, computeSleepNs prev cur m = some s → s ≤ 1000000000) ∧
    (min ((((cur - prev : Nat) : ℚ) / m).floor.toNat) 1000000000 ≤ 1000 →
      computeSleepNs prev cur m = none) := by
  have hcond : 0 < prev ∧ prev < cur ∧ 0 < m := ⟨hp, hc, hm⟩
  have hmin : (if 1000000000 < (((cur - prev : Nat) : ℚ) / m).floor.toNat
      then 1000000000
      else (((cur - prev : Nat) : ℚ) / m).floor.toNat) =
      min ((((cur - prev : Nat) : ℚ) / m).floor.toNat) 1000000000 := by
    rcases le_or_lt ((((cur - prev : Nat) : ℚ) / m).floor.toNat) 1000000000
      with h | h
    · rw [if_neg (not_lt.mpr h), min_eq_left h]
    · rw [if_pos h, min_eq_right (le_of_lt h)]
  have heq : computeSleepNs prev cur m =
      (if 1000 < min ((((cur - prev : Nat) : ℚ) / m).floor.toNat) 1000000000
       then some (min ((((cur - prev : Nat) : ℚ) / m).floor.toNat) 1000000000)
       else none) := by
    unfold computeSleepNs
    rw [if_pos hcond, hmin]
  refine ⟨heq, ?_, ?_⟩
  · intro s hs
    rw [heq] at hs
    split at hs
    · injection hs with h1
      rw [← h1]
      exact min_le_right _ _
    · exact Option.noConfusion hs
  · intro hle
    rw [heq, if_neg (not_lt.mpr hle)]

/-- Witness for C9 at `t_prev = 1`, `t = 2000002`, `m = 1`: the computed
sleep is 2000001 ns (no capping, above the 1 µs threshold). -/
theorem c9_sleep_cap_witness :
    computeSleepNs 1 2000002 1 = some 2000001 := by
  have h := (c9_sleep_cap 1 2000002 1 (by norm_num) (by norm_num)
    (by norm_num)).1
  rw [h]
  norm_num
  constructor <;> decide
